import Mathlib

/-!
Verification of the nix-docgen documentation-to-index compiler.

This file shallowly embeds the core of the repository:

* `src/zeal/generate_index.py` — the ANSI doc-stream parser
  (`ingest_lib_documentation`), the ANSI-escape stripper
  (`remove_ansi_escape_codes`), and its `register_section` (which writes the
  sqlite `searchIndex` table via `INSERT OR IGNORE` and the in-memory
  `OBJECTS` dict).
* `src/main.py` — the `generate_zeal` table-of-contents walk, the options
  page scan, and its `register_section` variant.

Python strings are modelled as Lean `String`s; the sqlite `searchIndex`
table (unique index on `(name, type, path)`, inserts via `INSERT OR
IGNORE`) is modelled as a duplicate-free list of `(name, type, path)`
triples with membership-checked insertion; the `OBJECTS` dict is modelled
as a `String → Option String` lookup function updated by assignment.
-/

namespace NixDocgen

/-- A persisted row of the `searchIndex` table, with the synthetic `id`
column ignored: `(name, type, path)`. -/
abbrev Row := String × String × String

/-- `INSERT OR IGNORE` against the unique index on `(name, type, path)`
(`CREATE UNIQUE INDEX anchor ON searchIndex (name, type, path)`): the row
is appended only when no row with the same triple is present. -/
def insertOrIgnore (table : List Row) (r : Row) : List Row :=
  if r ∈ table then table else table ++ [r]

/-- Folding a sequence of row inserts into the table. -/
def ingest (table : List Row) (rs : List Row) : List Row :=
  rs.foldl insertOrIgnore table

/-- Python `Char.isspace`-style whitespace used by `str.strip()`. -/
def isPySpace (c : Char) : Bool :=
  c == ' ' || c == '\t' || c == '\n' || c == '\r' || c == '\x0b' || c == '\x0c'

/-- Python `str.strip()`: remove leading and trailing whitespace. -/
def pyStrip (s : String) : String :=
  String.mk (((s.data.dropWhile isPySpace).reverse.dropWhile isPySpace).reverse)

/-- Python f-string interpolation of an optional value: `None` renders as
the literal text `"None"`. -/
def pyStr : Option String → String
  | none => "None"
  | some s => s

/-- Python `s.startswith(p)`. -/
def strStarts (s p : String) : Bool := p.data.isPrefixOf s.data

/-- Python `s.endswith(p)`. -/
def strEnds (s p : String) : Bool := p.data.isSuffixOf s.data

/-- Python `s[n:]` (by code points). -/
def strDrop (n : Nat) (s : String) : String := String.mk (s.data.drop n)

/-- One call to `register_section(key, value, kind)`. -/
structure Call where
  key : String
  value : String
  kind : String
deriving DecidableEq, Repr

/-- The `(name, type, path)` triple that `generate_index.py`'s
`register_section` inserts for a call: the key is stripped, and the path
column is `f"#{key}"` (generate_index.py line 36). -/
def tripleOf (c : Call) : Row :=
  (pyStrip c.key, c.kind, "#" ++ pyStrip c.key)

namespace GenerateIndex

/-- The mutable state of `src/zeal/generate_index.py`: the sqlite
`searchIndex` table and the in-memory `OBJECTS` dict. -/
structure IndexState where
  table : List Row
  objects : String → Option String

/-- The state right after `CREATE TABLE searchIndex(...)` and
`OBJECTS = {}`: empty table, empty dict. -/
def initState : IndexState :=
  { table := [], objects := fun _ => none }

/-- `register_section` of `src/zeal/generate_index.py` (lines 32–37):
strip key and value, assign `OBJECTS[key] = value`, and
`INSERT OR IGNORE` the row `(key, kind, f"#{key}")`. -/
def register_section (st : IndexState) (key value kind : String) : IndexState :=
  let k := pyStrip key
  let v := pyStrip value
  { table := insertOrIgnore st.table (k, kind, "#" ++ k)
    objects := fun k' => if k' = k then some v else st.objects k' }

/-- Running a sequence of `register_section` calls over a state. -/
def runCalls (st : IndexState) (calls : List Call) : IndexState :=
  calls.foldl (fun s c => register_section s c.key c.value c.kind) st

/-!
The ANSI stripper `remove_ansi_escape_codes` (generate_index.py lines
61–75) is `re.sub` with the ECMA-48 pattern: `ESC` followed by either a
single Fe byte (`0x40–0x5A` or `0x5C–0x5F`), or `[` plus parameter bytes
(`0x30–0x3F`) plus intermediate bytes (`0x20–0x2F`) plus one final byte
(`0x40–0x7E`).  Character classes of that regular expression follow. -/

/-- A 7-bit C1 Fe final byte other than `[` (CSI): `[@-Z\\-_]`,
i.e. `0x40–0x5A` or `0x5C–0x5F`. -/
def isFe (c : Char) : Bool :=
  (0x40 ≤ c.toNat && c.toNat ≤ 0x5A) || (0x5C ≤ c.toNat && c.toNat ≤ 0x5F)

/-- A CSI parameter byte `[0-?]`, i.e. `0x30–0x3F`. -/
def isParamByte (c : Char) : Bool := 0x30 ≤ c.toNat && c.toNat ≤ 0x3F

/-- A CSI intermediate byte (space through slash), i.e. `0x20–0x2F`. -/
def isInterByte (c : Char) : Bool := 0x20 ≤ c.toNat && c.toNat ≤ 0x2F

/-- A CSI final byte `[@-~]`, i.e. `0x40–0x7E`. -/
def isFinalByte (c : Char) : Bool := 0x40 ≤ c.toNat && c.toNat ≤ 0x7E

/-- State of the left-to-right scan performed by `re.sub`: either no escape
candidate is pending, or an `ESC` has been seen, or `ESC [` plus a buffer
of already-consumed parameter/intermediate bytes (held reversed, with a
flag recording whether an intermediate byte has been consumed, after which
parameter bytes are no longer admitted). -/
inductive StripState where
  | plain : StripState
  | esc : StripState
  | csi (buf : List Char) (inInter : Bool) : StripState
deriving DecidableEq, Repr

/-- One character of the scan: returns the next state and the characters
emitted to the output.  When a pending candidate fails to complete a match,
the consumed characters are emitted verbatim (none of them can be `ESC`,
so no match can start inside them — exactly `re.sub`'s advance-by-one
rescan) and the failing character is reprocessed from `plain`. -/
def stripStep : StripState → Char → StripState × List Char
  | .plain, c => if c = '\x1b' then (.esc, []) else (.plain, [c])
  | .esc, c =>
    if isFe c then (.plain, [])
    else if c = '[' then (.csi [] false, [])
    else if c = '\x1b' then (.esc, ['\x1b'])
    else (.plain, ['\x1b', c])
  | .csi buf inInter, c =>
    if isFinalByte c then (.plain, [])
    else if !inInter && isParamByte c then (.csi (c :: buf) false, [])
    else if isInterByte c then (.csi (c :: buf) true, [])
    else if c = '\x1b' then (.esc, '\x1b' :: '[' :: buf.reverse)
    else (.plain, '\x1b' :: '[' :: buf.reverse ++ [c])

/-- Characters a pending, incomplete candidate contributes to the output
at end of input (an unterminated candidate is left untouched). -/
def stripFlush : StripState → List Char
  | .plain => []
  | .esc => ['\x1b']
  | .csi buf _ => '\x1b' :: '[' :: buf.reverse

/-- The full scan of the character stream. -/
def stripRun (st : StripState) : List Char → List Char
  | [] => stripFlush st
  | c :: rest => (stripStep st c).2 ++ stripRun (stripStep st c).1 rest

/-- `remove_ansi_escape_codes` of generate_index.py (lines 61–75). -/
def remove_ansi_escape_codes (text : String) : String :=
  String.mk (stripRun .plain text.data)

/-- Tail of a CSI escape sequence after `ESC [`: parameter bytes (admitted
only while no intermediate byte has been consumed, tracked by the `Bool`
index), then intermediate bytes, then one final byte. -/
inductive CsiTail : Bool → List Char → Prop
  | final (b : Bool) (f : Char) : isFinalByte f = true → CsiTail b [f]
  | param (c : Char) (l : List Char) :
      isParamByte c = true → CsiTail false l → CsiTail false (c :: l)
  | inter (b : Bool) (c : Char) (l : List Char) :
      isInterByte c = true → CsiTail true l → CsiTail b (c :: l)

/-- A complete ANSI escape sequence matched by the `re.sub` grammar:
`ESC` + Fe byte, or `ESC [` + CSI tail. -/
inductive IsAnsiEscape : List Char → Prop
  | fe (d : Char) : isFe d = true → IsAnsiEscape ['\x1b', d]
  | csi (tail : List Char) : CsiTail false tail →
      IsAnsiEscape ('\x1b' :: '[' :: tail)

/-!
The document-stream parser `ingest_lib_documentation` (generate_index.py
lines 77–108).  The source's while-loop over `iter(lines)` with the
ambient accumulators `curdoc` / `funcname` is threaded explicitly; the
`next(lines)` that discards the line following a location line is modelled
by a `skip` flag consumed by the next step.  The function returns the list
of `register_section` calls the loop performs, in order. -/

/-- The colorized function-name marker `'\x1b[38;5;15;1m'`
(generate_index.py line 88). -/
def sigMarker : String := "\x1b[38;5;15;1m"

/-- The source-location marker `'# /nix'` (generate_index.py line 93). -/
def locMarker : String := "# /nix"

/-- The line-stream loop of `ingest_lib_documentation` (generate_index.py
lines 84–108), with state `(curdoc, funcname, skip)`; `skip = true` means
the previous step was a location line whose following separator line must
be discarded (`next(lines)` at line 104). -/
def ingest_lib_documentation (base : String) :
    List String → String → Option String → Bool → List Call
  | [], _, _, _ => []
  | _ :: rest, curdoc, funcname, true =>
      ingest_lib_documentation base rest curdoc funcname false
  | line :: rest, curdoc, funcname, false =>
    if strStarts line sigMarker then
      ingest_lib_documentation base rest
        (remove_ansi_escape_codes line ++ " \n" ++ curdoc)
        (some (String.mk ((remove_ansi_escape_codes line).data.takeWhile
          (fun c => c != '='))))
        false
    else if strStarts line locMarker then
      { key := base ++ "." ++ pyStr funcname
        value := curdoc ++ "\nDefined at: " ++ strDrop 2 line
        kind := "Function" }
        :: ingest_lib_documentation base rest "" none true
    else
      ingest_lib_documentation base rest (curdoc ++ "\n" ++ line) funcname false

end GenerateIndex

namespace MainPy

/-- `register_section` of `src/main.py` (lines 137–142): strip key and
value and `INSERT OR IGNORE` the row `(key, kind, value)` — here the
`path` column is the stripped `value`, not `f"#{key}"`. -/
def register_section (table : List Row) (key value kind : String) : List Row :=
  insertOrIgnore table (pyStrip key, kind, pyStrip value)

/-- One child node yielded by `NIXPKGS_INDEX.select_one('div.toc').findChildren()`
(main.py lines 172–186), classified by tag name.  A `dt` chapter marker
carries the `href` of its first `a` descendant when one exists
(`section.select_one("a")`) and its visible text; a `dd` section group
carries, for each `span.chapter` item, the `href` of its first `a`
descendant when one exists (`item.find("a", recursive=True)`) and the
item's text; every other node is ignored by the loop. -/
inductive TocChild where
  | dt (link : Option String) (text : String) : TocChild
  | dd (chapters : List (Option String × String)) : TocChild
  | other : TocChild
deriving DecidableEq, Repr

/-- The inner loop over `section.select("span.chapter")` of a `dd` node
(main.py lines 182–186).  `item.find("a")` returning `None` makes the
subsequent `.attrs['href']` raise `AttributeError`, modelled as
`Except.error ()` aborting the walk. -/
def ddChapters (docName sectionName base : String) :
    List (Option String × String) → Except Unit (List Call)
  | [] => .ok []
  | (none, _) :: _ => .error ()
  | (some href, text) :: rest => do
    let rs ← ddChapters docName sectionName base rest
    .ok ({ key := docName ++ " > " ++ sectionName ++ " > " ++ text
           value := base ++ "/" ++ href
           kind := "Guide" } :: rs)

/-- The table-of-contents walk of `generate_zeal` (main.py lines 172–186):
iterate the children holding one mutable current-chapter cursor
(`SECTION_NAME`, initially `"Preface"`); a `dt` without a link is skipped
without touching the cursor; a `dt` with a link updates the cursor and
registers a `Section`; each linked item of a `dd` registers a `Guide`
under the current cursor.  Returns the `register_section` calls in
document order. -/
def tocWalk (docName base : String) :
    List TocChild → String → Except Unit (List Call)
  | [], _ => .ok []
  | .dt none _ :: rest, cursor => tocWalk docName base rest cursor
  | .dt (some href) text :: rest, _ => do
    let rs ← tocWalk docName base rest text
    .ok ({ key := docName ++ " > " ++ text
           value := base ++ "/" ++ href
           kind := "Section" } :: rs)
  | .dd items :: rest, cursor => do
    let cs ← ddChapters docName cursor base items
    let rs ← tocWalk docName base rest cursor
    .ok (cs ++ rs)
  | .other :: rest, cursor => tocWalk docName base rest cursor

/-- One anchor yielded by `NIXOS_OPTIONS.select("a.term")` (main.py line
214): its visible text and, when present, its `href` attribute. -/
structure Anchor where
  text : String
  href : Option String
deriving DecidableEq, Repr

/-- The options-page loop of `generate_zeal` (main.py lines 214–220).
`outer_link` is bound to the anchor itself, so the `if outer_link is None`
guard can never fire, and `outer_link.attrs['href']` raises `KeyError`
when the anchor has no `href` attribute — modelled as `Except.error ()`
aborting the scan.  Returns the `register_section` calls in document
order otherwise. -/
def optionsScan (docName base : String) : List Anchor → Except Unit (List Call)
  | [] => .ok []
  | a :: rest =>
    match a.href with
    | none => .error ()
    | some href => do
      let rs ← optionsScan docName base rest
      .ok ({ key := docName ++ " > " ++ a.text
             value := base ++ "/" ++ href
             kind := "Option" } :: rs)

end MainPy

/-! ### Lemmas about the insert-or-ignore table model -/

lemma mem_insertOrIgnore {t : List Row} {r x : Row} :
    x ∈ insertOrIgnore t r ↔ x ∈ t ∨ x = r := by
  unfold insertOrIgnore
  by_cases h : r ∈ t
  · simp only [if_pos h]
    constructor
    · exact Or.inl
    · rintro (hx | rfl)
      · exact hx
      · exact h
  · simp [if_neg h]

lemma nodup_insertOrIgnore {t : List Row} (h : t.Nodup) (r : Row) :
    (insertOrIgnore t r).Nodup := by
  unfold insertOrIgnore
  by_cases hr : r ∈ t
  · simpa [if_pos hr] using h
  · simpa [if_neg hr, List.nodup_append] using ⟨h, hr⟩

lemma mem_ingest {x : Row} : ∀ (rs : List Row) (t : List Row),
    x ∈ ingest t rs ↔ x ∈ t ∨ x ∈ rs := by
  intro rs
  induction rs with
  | nil => intro t; simp [ingest]
  | cons r rs ih =>
    intro t
    have h1 : ingest t (r :: rs) = ingest (insertOrIgnore t r) rs := rfl
    rw [h1, ih]
    rw [mem_insertOrIgnore]
    constructor
    · rintro ((hx | rfl) | hx)
      · exact Or.inl hx
      · exact Or.inr (List.mem_cons_self _ _)
      · exact Or.inr (List.mem_cons_of_mem _ hx)
    · rintro (hx | hx)
      · exact Or.inl (Or.inl hx)
      · rcases List.mem_cons.mp hx with rfl | hx
        · exact Or.inl (Or.inr rfl)
        · exact Or.inr hx

lemma nodup_ingest : ∀ (rs : List Row) (t : List Row),
    t.Nodup → (ingest t rs).Nodup := by
  intro rs
  induction rs with
  | nil => intro t h; exact h
  | cons r rs ih =>
    intro t h
    have h1 : ingest t (r :: rs) = ingest (insertOrIgnore t r) rs := rfl
    rw [h1]
    exact ih _ (nodup_insertOrIgnore h r)

lemma runCalls_table (st : GenerateIndex.IndexState) :
    ∀ calls : List Call,
      (GenerateIndex.runCalls st calls).table = ingest st.table (calls.map tripleOf) := by
  suffices h : ∀ (calls : List Call) (s : GenerateIndex.IndexState),
      (GenerateIndex.runCalls s calls).table = ingest s.table (calls.map tripleOf) from
    fun calls => h calls st
  intro calls
  induction calls with
  | nil => intro s; rfl
  | cons c cs ih =>
    intro s
    have h1 : GenerateIndex.runCalls s (c :: cs)
        = GenerateIndex.runCalls (GenerateIndex.register_section s c.key c.value c.kind) cs := rfl
    rw [h1, ih]
    rfl

lemma runCalls_append (st : GenerateIndex.IndexState) (c₁ c₂ : List Call) :
    GenerateIndex.runCalls st (c₁ ++ c₂)
      = GenerateIndex.runCalls (GenerateIndex.runCalls st c₁) c₂ :=
  List.foldl_append _ _ _ _

lemma runCalls_objects_untouched : ∀ (calls : List Call)
    (st : GenerateIndex.IndexState) (k : String),
    (∀ c ∈ calls, pyStrip c.key ≠ k) →
    (GenerateIndex.runCalls st calls).objects k = st.objects k := by
  intro calls
  induction calls with
  | nil => intro st k _; rfl
  | cons c cs ih =>
    intro st k h
    have h1 : GenerateIndex.runCalls st (c :: cs)
        = GenerateIndex.runCalls (GenerateIndex.register_section st c.key c.value c.kind) cs := rfl
    rw [h1, ih _ _ (fun x hx => h x (List.mem_cons_of_mem _ hx))]
    have hc : pyStrip c.key ≠ k := h c (List.mem_cons_self _ _)
    exact if_neg fun h' => hc h'.symm

/-! ### C1 -/

/-- C1: for every sequence of records registered into one revision's index
(starting from the freshly created table), the persisted `searchIndex`
table never contains two rows with an identical `(name, type, path)`
triple — both for `generate_index.py`'s `register_section` and for
`main.py`'s variant — and inserting a row whose triple already exists
leaves the table unchanged. -/
theorem searchIndex_triple_unique :
    (∀ calls : List Call,
      ((GenerateIndex.runCalls GenerateIndex.initState calls).table).Nodup)
    ∧ (∀ (t : List Row) (k v kind : String), t.Nodup →
        (MainPy.register_section t k v kind).Nodup)
    ∧ (∀ (t : List Row) (r : Row), r ∈ t → insertOrIgnore t r = t) := by
  refine ⟨fun calls => ?_, fun t k v kind h => nodup_insertOrIgnore h _, fun t r h => ?_⟩
  · rw [runCalls_table]
    exact nodup_ingest _ _ List.nodup_nil
  · simp [insertOrIgnore, if_pos h]

/-- Witness for C1 at concrete inputs. -/
theorem searchIndex_triple_unique_witness :
    ((GenerateIndex.runCalls GenerateIndex.initState
        [⟨"a", "b", "Function"⟩, ⟨"a", "b", "Function"⟩]).table).Nodup
    ∧ ([("n", "T", "p")] : List Row).Nodup
    ∧ (MainPy.register_section [("n", "T", "p")] " n " "p" "T").Nodup
    ∧ ("n", "T", "p") ∈ ([("n", "T", "p")] : List Row)
    ∧ insertOrIgnore [("n", "T", "p")] ("n", "T", "p") = [("n", "T", "p")] :=
  ⟨searchIndex_triple_unique.1 _,
   by decide,
   searchIndex_triple_unique.2.1 _ " n " "p" "T" (by decide),
   by decide,
   searchIndex_triple_unique.2.2 _ _ (by decide)⟩

/-! ### C5 -/

/-- C5: ingesting the same record sequence twice in succession (without
recreating the table) yields the same `(name, type, path)` row set as
ingesting it once, and the final row set is independent of ingestion
order. -/
theorem ingest_idempotent_order_independent :
    (∀ (st : GenerateIndex.IndexState) (calls : List Call),
      ((GenerateIndex.runCalls st (calls ++ calls)).table).toFinset
        = ((GenerateIndex.runCalls st calls).table).toFinset)
    ∧ (∀ (st : GenerateIndex.IndexState) (c₁ c₂ : List Call), c₁.Perm c₂ →
        ((GenerateIndex.runCalls st c₁).table).toFinset
          = ((GenerateIndex.runCalls st c₂).table).toFinset) := by
  constructor
  · intro st calls
    ext x
    simp only [List.mem_toFinset, runCalls_table, mem_ingest, List.map_append,
      List.mem_append]
    tauto
  · intro st c₁ c₂ hperm
    ext x
    simp only [List.mem_toFinset, runCalls_table, mem_ingest]
    have : x ∈ c₁.map tripleOf ↔ x ∈ c₂.map tripleOf := (hperm.map tripleOf).mem_iff
    tauto

/-- Witness for C5 at concrete inputs. -/
theorem ingest_idempotent_order_independent_witness :
    (((GenerateIndex.runCalls GenerateIndex.initState
        ([⟨"a", "x", "Function"⟩, ⟨"b", "y", "Option"⟩]
          ++ [⟨"a", "x", "Function"⟩, ⟨"b", "y", "Option"⟩])).table).toFinset
      = ((GenerateIndex.runCalls GenerateIndex.initState
          [⟨"a", "x", "Function"⟩, ⟨"b", "y", "Option"⟩]).table).toFinset)
    ∧ (((GenerateIndex.runCalls GenerateIndex.initState
        [⟨"b", "y", "Option"⟩, ⟨"a", "x", "Function"⟩]).table).toFinset
      = ((GenerateIndex.runCalls GenerateIndex.initState
          [⟨"a", "x", "Function"⟩, ⟨"b", "y", "Option"⟩]).table).toFinset) :=
  ⟨ingest_idempotent_order_independent.1 _ _,
   ingest_idempotent_order_independent.2 _ _ _ (List.Perm.swap _ _ _)⟩

/-! ### C4 -/

/-- C4 counterexample: two records carrying the same
`(name, type, path)` triple but different bodies; after both are
registered, the in-memory `OBJECTS` mapping holds the second (last-seen)
body, not the first-seen one, refuting the claim as stated. -/
theorem objects_first_seen_cex :
    ((GenerateIndex.runCalls GenerateIndex.initState
        [⟨"k", "b1", "Function"⟩, ⟨"k", "b2", "Function"⟩]).objects "k" = some "b2")
    ∧ (tripleOf ⟨"k", "b1", "Function"⟩ = tripleOf ⟨"k", "b2", "Function"⟩)
    ∧ ("b2" : String) ≠ "b1" := by
  refine ⟨?_, by decide, by decide⟩
  decide

/-- C4 amended: the auxiliary in-memory name-to-body mapping retains the
body of the last-seen record for a name — `OBJECTS[key] = value` is a
plain dict assignment executed on every registration, overwriting the
earlier body even when the corresponding table insert is ignored. -/
theorem objects_last_wins (st : GenerateIndex.IndexState) (pre post : List Call)
    (k v kind : String)
    (h : ∀ c ∈ post, pyStrip c.key ≠ pyStrip k) :
    (GenerateIndex.runCalls st
        (pre ++ { key := k, value := v, kind := kind } :: post)).objects (pyStrip k)
      = some (pyStrip v) := by
  rw [show pre ++ ({ key := k, value := v, kind := kind } : Call) :: post
      = (pre ++ [{ key := k, value := v, kind := kind }]) ++ post by simp,
    runCalls_append, runCalls_objects_untouched post _ _ h, runCalls_append]
  simp [GenerateIndex.runCalls, GenerateIndex.register_section]

/-- Witness for C4's amended claim at concrete inputs. -/
theorem objects_last_wins_witness :
    (∀ c ∈ ([⟨"x", "y", "Function"⟩] : List Call), pyStrip c.key ≠ pyStrip "k")
    ∧ (GenerateIndex.runCalls GenerateIndex.initState
        ([⟨"k", "b1", "Function"⟩] ++ ⟨"k", "b2", "Function"⟩ :: [⟨"x", "y", "Function"⟩])).objects
          (pyStrip "k") = some (pyStrip "b2") :=
  ⟨by decide, objects_last_wins _ _ _ _ _ _ (by decide)⟩

/-! ### C3 -/

/-- C3: the options-page scan of `generate_zeal` does not skip a term
anchor lacking an `href`: on a page with three term anchors of which the
second lacks one, the scan raises (`outer_link.attrs['href']` is a
`KeyError`, since the `None` guard tests the anchor itself and can never
fire) instead of emitting two `Option` records. -/
theorem options_missing_href_raises :
    MainPy.optionsScan "NixOS Options" "nixos"
      [⟨"opt.a", some "options.html#opt.a"⟩, ⟨"opt.b", none⟩,
       ⟨"opt.c", some "options.html#opt.c"⟩] = Except.error () := rfl

/-! ### Lemmas about the doc-stream parser -/

/-- A line starting with `'# /nix'` cannot also start with the escape
marker `'\x1b[38;5;15;1m'` (their first characters differ). -/
lemma loc_not_sig (line : String)
    (h : strStarts line GenerateIndex.locMarker = true) :
    strStarts line GenerateIndex.sigMarker = false := by
  unfold strStarts GenerateIndex.locMarker GenerateIndex.sigMarker at *
  have hd : ("# /nix" : String).data = '#' :: " /nix".data := rfl
  have hs : ("\x1b[38;5;15;1m" : String).data = '\x1b' :: "[38;5;15;1m".data := rfl
  rw [hd] at h
  rw [hs]
  match hl : line.data with
  | [] =>
    rw [hl] at h
    simp [List.isPrefixOf] at h
  | c :: cs =>
    rw [hl] at h
    have hc : c = '#' := by
      simp only [List.isPrefixOf, Bool.and_eq_true, beq_iff_eq] at h
      exact h.1.symm
    subst hc
    have hne : ('\x1b' == '#') = false := by decide
    simp [List.isPrefixOf, hne]

/-- Ordinary lines (neither signature nor location lines) are appended to
the accumulation buffer, one line break before each, without emitting any
record or touching the name cursor. -/
lemma ingest_ordinary_lines (base : String) : ∀ (pre rest : List String)
    (doc : String) (fn : Option String),
    (∀ l ∈ pre, strStarts l GenerateIndex.sigMarker = false
      ∧ strStarts l GenerateIndex.locMarker = false) →
    GenerateIndex.ingest_lib_documentation base (pre ++ rest) doc fn false
      = GenerateIndex.ingest_lib_documentation base rest
          (pre.foldl (fun d l => d ++ "\n" ++ l) doc) fn false := by
  intro pre
  induction pre with
  | nil => intro rest doc fn _; rfl
  | cons l pre ih =>
    intro rest doc fn h
    have hl := h l (List.mem_cons_self _ _)
    simp only [List.cons_append, GenerateIndex.ingest_lib_documentation, hl.1, hl.2,
      Bool.false_eq_true, if_false]
    exact ih rest _ fn (fun x hx => h x (List.mem_cons_of_mem _ hx))

/-- A stream with no location line produces no `register_section` call at
all, from any starting state. -/
lemma no_loc_no_records (base : String) : ∀ (lines : List String)
    (doc : String) (fn : Option String) (skip : Bool),
    (∀ l ∈ lines, strStarts l GenerateIndex.locMarker = false) →
    GenerateIndex.ingest_lib_documentation base lines doc fn skip = [] := by
  intro lines
  induction lines with
  | nil => intro doc fn skip _; cases skip <;> rfl
  | cons l rest ih =>
    intro doc fn skip h
    have hrest : ∀ x ∈ rest, strStarts x GenerateIndex.locMarker = false :=
      fun x hx => h x (List.mem_cons_of_mem _ hx)
    cases skip with
    | true =>
      simp only [GenerateIndex.ingest_lib_documentation]
      exact ih doc fn false hrest
    | false =>
      cases hs : strStarts l GenerateIndex.sigMarker with
      | true =>
        simp only [GenerateIndex.ingest_lib_documentation, hs, if_true]
        exact ih _ _ false hrest
      | false =>
        simp only [GenerateIndex.ingest_lib_documentation, hs,
          h l (List.mem_cons_self _ _), Bool.false_eq_true, if_false]
        exact ih _ fn false hrest

/-! ### C6 -/

/-- C6: a stream that ends mid-accumulation — at least one signature line
consumed, but no source-location line anywhere before exhaustion — emits
zero records: the partial record is dropped silently. -/
theorem truncated_stream_no_records (base : String) (lines : List String)
    (doc : String) (fn : Option String) (skip : Bool)
    (_hsig : ∃ l ∈ lines, strStarts l GenerateIndex.sigMarker = true)
    (hloc : ∀ l ∈ lines, strStarts l GenerateIndex.locMarker = false) :
    GenerateIndex.ingest_lib_documentation base lines doc fn skip = [] :=
  no_loc_no_records base lines doc fn skip hloc

/-- Witness for C6 at a concrete truncated stream. -/
theorem truncated_stream_no_records_witness :
    (∃ l ∈ (["\x1b[38;5;15;1mfoo = 1", "doc line"] : List String),
      strStarts l GenerateIndex.sigMarker = true)
    ∧ (∀ l ∈ (["\x1b[38;5;15;1mfoo = 1", "doc line"] : List String),
        strStarts l GenerateIndex.locMarker = false)
    ∧ GenerateIndex.ingest_lib_documentation "lib"
        ["\x1b[38;5;15;1mfoo = 1", "doc line"] "" none false = [] :=
  ⟨by decide, by decide,
   truncated_stream_no_records "lib" _ "" none false (by decide) (by decide)⟩

/-! ### C7 -/

/-- C7: a line beginning with the source-root marker ends the current
record: the parser emits a `Function` record named
`{namespace}.{currentName}` with body `{doc}\nDefined at: {line}` (the
line's two-character prefix stripped), resets the buffer to empty and the
cursor to unset, and discards the single line immediately following the
location line, whatever its content; when registered, the record's row
carries locator `'#' ++ name`. -/
theorem location_line_emits_and_resets (base line sep : String)
    (rest : List String) (doc n : String)
    (h : strStarts line GenerateIndex.locMarker = true) :
    (GenerateIndex.ingest_lib_documentation base (line :: sep :: rest) doc (some n) false
      = { key := base ++ "." ++ n
          value := doc ++ "\nDefined at: " ++ strDrop 2 line
          kind := "Function" }
        :: GenerateIndex.ingest_lib_documentation base rest "" none false)
    ∧ (GenerateIndex.ingest_lib_documentation base [line] doc (some n) false
      = [{ key := base ++ "." ++ n
           value := doc ++ "\nDefined at: " ++ strDrop 2 line
           kind := "Function" }])
    ∧ (∀ (st : GenerateIndex.IndexState) (v : String),
        (GenerateIndex.register_section st (base ++ "." ++ n) v "Function").table
          = insertOrIgnore st.table
              (pyStrip (base ++ "." ++ n), "Function", "#" ++ pyStrip (base ++ "." ++ n))) := by
  refine ⟨?_, ?_, fun st v => rfl⟩
  · simp only [GenerateIndex.ingest_lib_documentation, loc_not_sig line h, h,
      Bool.false_eq_true, if_false, if_true, pyStr]
  · simp only [GenerateIndex.ingest_lib_documentation, loc_not_sig line h, h,
      Bool.false_eq_true, if_false, if_true, pyStr]

/-- Witness for C7 at a concrete location line. -/
theorem location_line_emits_and_resets_witness :
    (strStarts "# /nix/store/x.nix:1" GenerateIndex.locMarker = true)
    ∧ (GenerateIndex.ingest_lib_documentation "lib"
          ["# /nix/store/x.nix:1", "separator"] "d" (some "f") false
        = { key := "lib" ++ "." ++ "f"
            value := "d" ++ "\nDefined at: " ++ strDrop 2 "# /nix/store/x.nix:1"
            kind := "Function" }
          :: GenerateIndex.ingest_lib_documentation "lib" [] "" none false) :=
  ⟨by decide,
   (location_line_emits_and_resets "lib" "# /nix/store/x.nix:1" "separator" []
     "d" "f" (by decide)).1⟩

/-! ### C10 -/

/-- C10: when a source-location line arrives before any signature line has
set the name cursor, the parser still emits a `Function` record; the unset
cursor (Python `None`) is rendered as the literal text `"None"` inside the
record name `{namespace}.None`, rather than the record being dropped. -/
theorem unset_cursor_renders_none (base : String) (pre : List String)
    (line : String) (rest : List String) (doc : String)
    (hpre : ∀ l ∈ pre, strStarts l GenerateIndex.sigMarker = false
      ∧ strStarts l GenerateIndex.locMarker = false)
    (hline : strStarts line GenerateIndex.locMarker = true) :
    GenerateIndex.ingest_lib_documentation base (pre ++ line :: rest) doc none false
      = { key := base ++ "." ++ "None"
          value := (pre.foldl (fun d l => d ++ "\n" ++ l) doc)
            ++ "\nDefined at: " ++ strDrop 2 line
          kind := "Function" }
        :: GenerateIndex.ingest_lib_documentation base rest "" none true := by
  rw [ingest_ordinary_lines base pre (line :: rest) doc none hpre]
  simp only [GenerateIndex.ingest_lib_documentation, loc_not_sig line hline, hline,
    Bool.false_eq_true, if_false, if_true, pyStr]

/-- Witness for C10 at a concrete stream whose location line precedes any
signature line. -/
theorem unset_cursor_renders_none_witness :
    (strStarts "# /nix/store/x.nix:1" GenerateIndex.locMarker = true)
    ∧ GenerateIndex.ingest_lib_documentation "lib"
        (["intro"] ++ "# /nix/store/x.nix:1" :: []) "" none false
      = { key := "lib" ++ "." ++ "None"
          value := ((["intro"] : List String).foldl (fun d l => d ++ "\n" ++ l) "")
            ++ "\nDefined at: " ++ strDrop 2 "# /nix/store/x.nix:1"
          kind := "Function" }
        :: GenerateIndex.ingest_lib_documentation "lib" [] "" none true :=
  ⟨by decide,
   unset_cursor_renders_none "lib" ["intro"] "# /nix/store/x.nix:1" [] ""
     (by decide) (by decide)⟩

/-! ### C2 -/

/-- C2 counterexample: for the one-complete-function stream under
namespace `"lib"`, the single emitted record's persisted name is
`"lib. foo"` — `line.split('=')[0]` keeps the space between the escape
marker and `foo`, and the final `strip()` removes only the outer
whitespace — which differs from the claimed `"lib.foo"`. -/
theorem parser_space_in_name_cex :
    ((GenerateIndex.ingest_lib_documentation "lib"
        ["\x1b[38;5;15;1m foo = x: x", "# /nix/store/abc/lib/default.nix:10"]
        "" none false).map (fun c => pyStrip c.key)) = ["lib. foo"]
    ∧ ("lib. foo" : String) ≠ "lib.foo" := by
  constructor
  · decide
  · decide

/-- C2 amended: for that stream under namespace prefix `ns`, the parser
emits exactly one `Function` record; its raw name is `ns ++ "." ++ " foo "`
(so the persisted, stripped name is `ns.strip() ++ ". foo"`, with the
signature's space surviving after the dot), and its body ends with
`Defined at: /nix/store/abc/lib/default.nix:10`. -/
theorem parser_single_function_amended (ns : String) :
    GenerateIndex.ingest_lib_documentation ns
        ["\x1b[38;5;15;1m foo = x: x", "# /nix/store/abc/lib/default.nix:10"]
        "" none false
      = [{ key := ns ++ "." ++ " foo "
           value := " foo = x: x \n" ++ "\nDefined at: /nix/store/abc/lib/default.nix:10"
           kind := "Function" }]
    ∧ strEnds (" foo = x: x \n" ++ "\nDefined at: /nix/store/abc/lib/default.nix:10")
        "Defined at: /nix/store/abc/lib/default.nix:10" = true := by
  constructor
  · rfl
  · decide

/-! ### C8 -/

/-- C8: a chapter marker (`dt`) without a hyperlink child is skipped
entirely — it emits no record and leaves the current-chapter cursor
unchanged — and in a two-chapter TOC whose first chapter lacks a link and
whose second chapter has a link and one nested guide entry, the walk emits
exactly one `Section` record and one `Guide` record, both carrying the
second chapter's title in their breadcrumb. -/
theorem chapter_without_link_skipped :
    (∀ (docName base : String) (rest : List MainPy.TocChild) (cursor text : String),
      MainPy.tocWalk docName base (.dt none text :: rest) cursor
        = MainPy.tocWalk docName base rest cursor)
    ∧ (∀ (docName base t₁ t₂ href₂ ghref gtext : String),
      MainPy.tocWalk docName base
          [.dt none t₁, .dt (some href₂) t₂, .dd [(some ghref, gtext)]] "Preface"
        = .ok [{ key := docName ++ " > " ++ t₂
                 value := base ++ "/" ++ href₂
                 kind := "Section" },
               { key := docName ++ " > " ++ t₂ ++ " > " ++ gtext
                 value := base ++ "/" ++ ghref
                 kind := "Guide" }]) :=
  ⟨fun _ _ _ _ _ => rfl, fun _ _ _ _ _ _ _ => rfl⟩

/-! ### Lemmas about the ANSI stripper -/

open GenerateIndex

lemma param_not_final {c : Char} (h : isParamByte c = true) :
    isFinalByte c = false := by
  cases hf : isFinalByte c with
  | false => rfl
  | true =>
    exfalso
    simp only [isParamByte, Bool.and_eq_true, decide_eq_true_eq] at h
    simp only [isFinalByte, Bool.and_eq_true, decide_eq_true_eq] at hf
    omega

lemma inter_not_final {c : Char} (h : isInterByte c = true) :
    isFinalByte c = false := by
  cases hf : isFinalByte c with
  | false => rfl
  | true =>
    exfalso
    simp only [isInterByte, Bool.and_eq_true, decide_eq_true_eq] at h
    simp only [isFinalByte, Bool.and_eq_true, decide_eq_true_eq] at hf
    omega

lemma inter_not_param {c : Char} (h : isInterByte c = true) :
    isParamByte c = false := by
  cases hp : isParamByte c with
  | false => rfl
  | true =>
    exfalso
    simp only [isInterByte, Bool.and_eq_true, decide_eq_true_eq] at h
    simp only [isParamByte, Bool.and_eq_true, decide_eq_true_eq] at hp
    omega

lemma param_ne_esc {c : Char} (h : isParamByte c = true) : c ≠ '\x1b' := by
  intro hc
  subst hc
  simp only [isParamByte] at h
  exact absurd h (by decide)

lemma inter_ne_esc {c : Char} (h : isInterByte c = true) : c ≠ '\x1b' := by
  intro hc
  subst hc
  simp only [isInterByte] at h
  exact absurd h (by decide)

/-- Scanning a stretch of characters containing no `ESC` from the idle
state copies it to the output unchanged. -/
lemma stripRun_no_esc : ∀ (pre l : List Char), (∀ c ∈ pre, c ≠ '\x1b') →
    GenerateIndex.stripRun .plain (pre ++ l)
      = pre ++ GenerateIndex.stripRun .plain l := by
  intro pre
  induction pre with
  | nil => intro l _; rfl
  | cons c pre ih =>
    intro l h
    have hc : c ≠ '\x1b' := h c (List.mem_cons_self _ _)
    simp only [List.cons_append, GenerateIndex.stripRun, GenerateIndex.stripStep,
      if_neg hc]
    exact congrArg (c :: ·) (ih l (fun x hx => h x (List.mem_cons_of_mem _ hx)))

/-- A complete CSI tail reachable from the munching state is consumed
whole, emitting nothing, and the scan resumes idle after it. -/
lemma stripRun_csiTail {b : Bool} {tail : List Char} (h : CsiTail b tail) :
    ∀ (buf post : List Char),
      GenerateIndex.stripRun (.csi buf b) (tail ++ post)
        = GenerateIndex.stripRun .plain post := by
  induction h with
  | final b f hf =>
    intro buf post
    simp only [List.cons_append, List.nil_append, GenerateIndex.stripRun,
      GenerateIndex.stripStep, hf, if_true, List.nil_append]
    rfl
  | param c l hc _ ih =>
    intro buf post
    simp only [List.cons_append, GenerateIndex.stripRun, GenerateIndex.stripStep,
      param_not_final hc, hc, Bool.false_eq_true, if_false, Bool.not_false,
      Bool.true_and, if_true, List.nil_append]
    exact ih _ _
  | inter b c l hc _ ih =>
    intro buf post
    cases b with
    | false =>
      simp only [List.cons_append, GenerateIndex.stripRun, GenerateIndex.stripStep,
        inter_not_final hc, inter_not_param hc, hc, Bool.false_eq_true, if_false,
        Bool.not_false, Bool.true_and, if_true, List.nil_append]
      exact ih _ _
    | true =>
      simp only [List.cons_append, GenerateIndex.stripRun, GenerateIndex.stripStep,
        inter_not_final hc, hc, Bool.false_eq_true, if_false, Bool.not_true,
        Bool.false_and, if_true, List.nil_append]
      exact ih _ _

/-- A substring matching the escape grammar, encountered from the idle
state, is removed whole. -/
lemma stripRun_escape {e : List Char} (h : IsAnsiEscape e) (post : List Char) :
    GenerateIndex.stripRun .plain (e ++ post)
      = GenerateIndex.stripRun .plain post := by
  cases h with
  | fe d hd =>
    simp only [List.cons_append, List.nil_append, GenerateIndex.stripRun,
      GenerateIndex.stripStep, if_pos rfl, hd, if_true, List.nil_append]
    rfl
  | csi tail ht =>
    have hbr : GenerateIndex.isFe '[' = false := by decide
    simp only [List.cons_append, GenerateIndex.stripRun, GenerateIndex.stripStep,
      if_pos rfl, hbr, Bool.false_eq_true, if_false, if_pos rfl, List.nil_append]
    exact stripRun_csiTail ht [] post

lemma stripRun_cons (st : StripState) (c : Char) (l : List Char) :
    stripRun st (c :: l) = (stripStep st c).2 ++ stripRun (stripStep st c).1 l := rfl

lemma stripRun_plain_cons {c : Char} (hc : c ≠ '\x1b') (l : List Char) :
    stripRun .plain (c :: l) = c :: stripRun .plain l := by
  simp [stripRun_cons, stripStep, hc]

lemma stripRun_plain_esc (l : List Char) :
    stripRun .plain ('\x1b' :: l) = stripRun .esc l := by
  simp [stripRun_cons, stripStep]

lemma stripStep_csi_param {c : Char} (hf : isFinalByte c = false)
    (hc : isParamByte c = true) (buf : List Char) :
    stripStep (.csi buf false) c = (.csi (c :: buf) false, []) := by
  simp [stripStep, hf, hc]

lemma stripStep_csi_inter {c : Char} (hf : isFinalByte c = false)
    (hi : isInterByte c = true) (buf : List Char) (b : Bool) :
    stripStep (.csi buf b) c = (.csi (c :: buf) true, []) := by
  cases b <;> simp [stripStep, hf, hi, inter_not_param hi]

lemma stripStep_csi_esc (buf : List Char) (b : Bool) :
    stripStep (.csi buf b) '\x1b' = (.esc, '\x1b' :: '[' :: buf.reverse) := by
  have h1 : isFinalByte '\x1b' = false := by decide
  have h2 : isParamByte '\x1b' = false := by decide
  have h3 : isInterByte '\x1b' = false := by decide
  cases b <;> simp [stripStep, h1, h2, h3]

lemma stripStep_csi_fail {c : Char} {b : Bool} (hf : isFinalByte c = false)
    (hp : (!b && isParamByte c) = false) (hi : isInterByte c = false)
    (hne : c ≠ '\x1b') (buf : List Char) :
    stripStep (.csi buf b) c = (.plain, '\x1b' :: '[' :: buf.reverse ++ [c]) := by
  simp [stripStep, hf, hp, hi, hne]

/-- When no completion of the pending `ESC [` candidate matches the
grammar, the scan emits the candidate's characters untouched and the rest
of the output is as if scanning had restarted right after the `ESC [`
(no match can begin inside the consumed parameter/intermediate bytes,
since none of them is `ESC`). -/
lemma stripRun_csi_no_match : ∀ (l : List Char) (b : Bool) (buf : List Char),
    (∀ e t, l = e ++ t → ¬ CsiTail b e) →
    stripRun (.csi buf b) l = '\x1b' :: '[' :: buf.reverse ++ stripRun .plain l := by
  intro l
  induction l with
  | nil =>
    intro b buf _
    simp [stripRun, stripFlush]
  | cons c rest ih =>
    intro b buf h
    cases hf : isFinalByte c with
    | true => exact absurd (CsiTail.final b c hf) (h [c] rest rfl)
    | false =>
      cases hp : (!b && isParamByte c) with
      | true =>
        have hb : b = false := by
          cases b with
          | false => rfl
          | true => simp at hp
        subst hb
        have hc : isParamByte c = true := by simpa using hp
        have hrest : ∀ e t, rest = e ++ t → ¬ CsiTail false e := by
          intro e t het hct
          exact h (c :: e) t (by rw [het, List.cons_append]) (CsiTail.param c e hc hct)
        rw [stripRun_cons, stripStep_csi_param hf hc buf, ih false (c :: buf) hrest,
          stripRun_plain_cons (param_ne_esc hc)]
        simp
      | false =>
        cases hi : isInterByte c with
        | true =>
          have hrest : ∀ e t, rest = e ++ t → ¬ CsiTail true e := by
            intro e t het hct
            exact h (c :: e) t (by rw [het, List.cons_append])
              (CsiTail.inter b c e hi hct)
          rw [stripRun_cons, stripStep_csi_inter hf hi buf b, ih true (c :: buf) hrest,
            stripRun_plain_cons (inter_ne_esc hi)]
          simp
        | false =>
          by_cases hne : c = '\x1b'
          · subst hne
            rw [stripRun_cons, stripStep_csi_esc buf b, stripRun_plain_esc]
          · rw [stripRun_cons, stripStep_csi_fail hf hp hi hne buf,
              stripRun_plain_cons hne]
            simp

/-- An `ESC` at which no substring matching the escape grammar begins is
kept in the output, and scanning resumes at the following character. -/
lemma stripRun_no_match_esc : ∀ (rest : List Char),
    (∀ e t, '\x1b' :: rest = e ++ t → ¬ IsAnsiEscape e) →
    stripRun .plain ('\x1b' :: rest) = '\x1b' :: stripRun .plain rest := by
  intro rest h
  rw [stripRun_plain_esc]
  cases rest with
  | nil => rfl
  | cons d r =>
    cases hd : isFe d with
    | true => exact absurd (IsAnsiEscape.fe d hd) (h ['\x1b', d] r rfl)
    | false =>
      by_cases hbr : d = '['
      · subst hbr
        have hstep : stripStep .esc '[' = (.csi [] false, []) := by
          simp [stripStep, hd]
        have hnom : ∀ e t, r = e ++ t → ¬ CsiTail false e := by
          intro e t het hct
          exact h ('\x1b' :: '[' :: e) t (by rw [het]; rfl) (IsAnsiEscape.csi e hct)
        rw [stripRun_cons, hstep, stripRun_csi_no_match r false [] hnom,
          stripRun_plain_cons (by decide : ('[' : Char) ≠ '\x1b')]
        simp
      · by_cases hesc : d = '\x1b'
        · subst hesc
          have hstep : stripStep .esc '\x1b' = (.esc, ['\x1b']) := by
            simp [stripStep, hd, hbr]
          rw [stripRun_cons, hstep, stripRun_plain_esc]
          rfl
        · have hstep : stripStep .esc d = (.plain, ['\x1b', d]) := by
            simp [stripStep, hd, hbr, hesc]
          rw [stripRun_cons, hstep, stripRun_plain_cons hesc]
          rfl

/-! ### C9 -/

/-- C9: `remove_ansi_escape_codes` is a pure text transform over the
character sequence of its input (first conjunct, definitionally); every
substring matching the ECMA-48 CSI/Fe escape grammar encountered by the
left-to-right scan is removed whole (second conjunct); and at an `ESC`
where no substring matching the grammar begins — a malformed escape — the
character is left untouched and scanning continues, no error being
possible (third conjunct). -/
theorem remove_ansi_escape_correct :
    (∀ s : String, (GenerateIndex.remove_ansi_escape_codes s).data
        = GenerateIndex.stripRun .plain s.data)
    ∧ (∀ pre e post : List Char,
        (∀ c ∈ pre, c ≠ '\x1b') → GenerateIndex.IsAnsiEscape e →
        GenerateIndex.stripRun .plain (pre ++ e ++ post)
          = pre ++ GenerateIndex.stripRun .plain post)
    ∧ (∀ rest : List Char,
        (∀ e t, '\x1b' :: rest = e ++ t → ¬ GenerateIndex.IsAnsiEscape e) →
        GenerateIndex.stripRun .plain ('\x1b' :: rest)
          = '\x1b' :: GenerateIndex.stripRun .plain rest) := by
  refine ⟨fun s => rfl, fun pre e post hpre he => ?_, stripRun_no_match_esc⟩
  rw [List.append_assoc, stripRun_no_esc pre _ hpre, stripRun_escape he]

/-- Witness for C9: the colour escape `ESC [ 3 1 m` is removed from
`p ESC[31m q`, and the malformed lone `ESC [` is kept untouched. -/
theorem remove_ansi_escape_correct_witness :
    (∀ c ∈ (['p'] : List Char), c ≠ '\x1b')
    ∧ GenerateIndex.IsAnsiEscape ['\x1b', '[', '3', '1', 'm']
    ∧ GenerateIndex.stripRun .plain (['p'] ++ ['\x1b', '[', '3', '1', 'm'] ++ ['q'])
        = ['p'] ++ GenerateIndex.stripRun .plain ['q']
    ∧ GenerateIndex.stripRun .plain ('\x1b' :: ['['])
        = '\x1b' :: GenerateIndex.stripRun .plain ['['] := by
  have hesc : GenerateIndex.IsAnsiEscape ['\x1b', '[', '3', '1', 'm'] :=
    .csi ['3', '1', 'm']
      (.param '3' ['1', 'm'] (by decide)
        (.param '1' ['m'] (by decide) (.final false 'm' (by decide))))
  have hnom : ∀ e t, ('\x1b' :: ['['] : List Char) = e ++ t →
      ¬ GenerateIndex.IsAnsiEscape e := by
    intro e t het hbad
    cases hbad with
    | fe d hd =>
      have h2 : ('[' :: ([] : List Char)) = d :: t := by simpa using het
      injection h2 with h3 h4
      subst h3
      exact absurd hd (by decide)
    | csi tail ht =>
      have h2 : ([] : List Char) = tail ++ t := by simpa using het
      have h3 : tail = [] := by
        cases tail with
        | nil => rfl
        | cons a l => simp at h2
      subst h3
      cases ht
  exact ⟨by decide, hesc,
    remove_ansi_escape_correct.2.1 ['p'] _ ['q'] (by decide) hesc,
    remove_ansi_escape_correct.2.2 ['['] hnom⟩

end NixDocgen
